/-
  Verification of the f1-live-dashboard loader / simulator / API logic.

  Shallow embedding of the Python sources in src/live/ (models.py,
  management/commands/load_race.py, management/commands/simulate.py,
  views.py).  Database rows become Lean structures, querysets become
  lists, and the batch algorithms become pure functions over them.
  Millisecond times (floats in the source) are embedded as rationals.
-/
import Mathlib

namespace F1

/-! ## Simulator (src/live/management/commands/simulate.py)

`Command.handle` loads the race row, precomputes the SC and VSC lap sets
from the Incident table, then loops: while `current_lap < total_laps`,
increment `current_lap`, set `safety_car` from the lap sets (SC first,
then VSC, else NONE), and save the row.  After the loop it persists
`is_running = False`, `is_finished = True`, `safety_car = "NONE"`. -/

structure SimRace where
  currentLap : Nat
  totalLaps : Nat
  isRunning : Bool
  isFinished : Bool
  safetyCar : String
  dataLoaded : Bool
  deriving Repr, DecidableEq

/-- Safety-car value written for a given lap: membership in the SC lap
set wins over the VSC lap set, anything else forces `"NONE"`
(simulate.py lines 86-91). -/
def scFor (scLaps vscLaps : List Nat) (lap : Nat) : String :=
  if lap ∈ scLaps then "SC"
  else if lap ∈ vscLaps then "VSC"
  else "NONE"

/-- One loop iteration of the simulator: increment `current_lap`, then
recompute `safety_car` from the static lap sets (simulate.py 83-93). -/
def simTick (scLaps vscLaps : List Nat) (r : SimRace) : SimRace :=
  let l := r.currentLap + 1
  { r with currentLap := l, safetyCar := scFor scLaps vscLaps l }

/-- The `while race.current_lap < race.total_laps` loop; returns the
final race row together with the number of tick advances performed. -/
def simLoop (scLaps vscLaps : List Nat) (r : SimRace) : SimRace × Nat :=
  if r.currentLap < r.totalLaps then
    let p := simLoop scLaps vscLaps (simTick scLaps vscLaps r)
    (p.1, p.2 + 1)
  else (r, 0)
termination_by r.totalLaps - r.currentLap
decreasing_by simp [simTick]; omega

/-- The list of race states persisted by `race.save()` inside the loop,
in order (one per tick). -/
def simTrace (scLaps vscLaps : List Nat) (r : SimRace) : List SimRace :=
  if r.currentLap < r.totalLaps then
    simTick scLaps vscLaps r :: simTrace scLaps vscLaps (simTick scLaps vscLaps r)
  else []
termination_by r.totalLaps - r.currentLap
decreasing_by simp [simTick]; omega

/-- Whole uninterrupted simulator run (simulate.py 77-120): mark running,
loop to the final lap, then mark finished and clear the safety car. -/
def simRun (scLaps vscLaps : List Nat) (r : SimRace) : SimRace × Nat :=
  let started := { r with isRunning := true, isFinished := false }
  let p := simLoop scLaps vscLaps started
  ({ p.1 with isRunning := false, isFinished := true, safetyCar := "NONE" }, p.2)

/-! ## Loader reload guard (src/live/management/commands/load_race.py 41-92)

`Command.handle` looks up the existing `Race` row for `(year, round)`;
if it exists with `data_loaded` and no `--force` it warns and returns
before any write; if it exists and `--force` is given, `existing.delete()`
removes the row and (by `on_delete=CASCADE`, models.py) every child row,
then loading proceeds and `Race.objects.create(year=..., round_number=...)`
inserts a fresh row — `Race.Meta.unique_together = ['year', 'round_number']`
makes that insert fail if a row with the same key is still present. -/

structure RaceRow where
  id : Nat
  year : Int
  roundNumber : Int
  dataLoaded : Bool
  deriving Repr, DecidableEq

/-- A child row of any of the tables hanging off `Race` (Driver,
LapTiming, PitStop, TyreStint, Telemetry, Incident), abstracted to its
foreign key. -/
structure ChildRow where
  raceId : Nat
  deriving Repr, DecidableEq

structure LoaderDB where
  races : List RaceRow
  children : List ChildRow
  deriving Repr, DecidableEq

/-- `Race.objects.filter(year=year, round_number=round_num)`. -/
def raceFilter (db : LoaderDB) (y rd : Int) : List RaceRow :=
  db.races.filter (fun r => r.year == y && r.roundNumber == rd)

/-- `existing.delete()`: removes the row and, by cascade, its children. -/
def deleteRace (db : LoaderDB) (e : RaceRow) : LoaderDB :=
  { races := db.races.filter (fun r => r.id ≠ e.id),
    children := db.children.filter (fun c => c.raceId ≠ e.id) }

/-- The reload guard at the top of `handle` (load_race.py 41-51):
`none` means the early return with the already-loaded warning, `some db'`
means loading proceeds against `db'` (after the forced delete, if any). -/
def applyGuard (db : LoaderDB) (y rd : Int) (force : Bool) : Option LoaderDB :=
  match (raceFilter db y rd).head? with
  | none => some db
  | some e =>
    if e.dataLoaded && !force then none
    else if force then some (deleteRace db e)
    else some db

/-- Outcome of running `load_race`: an early warning return, a
unique-constraint collision at `Race.objects.create`, or a completed
load (the new row ends with `data_loaded = true`). -/
inductive LoadOutcome where
  | warned
  | uniqueViolation (dbAtCreate : LoaderDB)
  | ok (db : LoaderDB)
  deriving Repr, DecidableEq

/-- `handle` up to and including the `Race.objects.create` insert, with
the rest of a successful load abstracted to the new row (which finishes
with `data_loaded = True`, load_race.py 243-244). `newId` is the fresh
primary key the database assigns. -/
def loadRace (db : LoaderDB) (y rd : Int) (force : Bool) (newId : Nat) : LoadOutcome :=
  match applyGuard db y rd force with
  | none => .warned
  | some db' =>
    if (raceFilter db' y rd).isEmpty then
      .ok { db' with races := db'.races ++ [⟨newId, y, rd, true⟩] }
    else .uniqueViolation db'

/-! ## API views (src/live/views.py)

Rows are embedded with the fields the endpoints read; querysets become
lists filtered and ordered explicitly.  `first()` on an ordered queryset
is embedded as `firstBy lt`, returning the earliest element that is
minimal for the strict order `lt`. -/

/-- Python `str.upper()` on one character (driver abbreviations are
ASCII). -/
def upperChar (c : Char) : Char :=
  if 'a' ≤ c ∧ c ≤ 'z' then Char.ofNat (c.toNat - 32) else c

/-- Python `str.upper()` as applied to `abbreviation.upper()`
(views.py 203). -/
def pyUpper (s : String) : String := ⟨s.data.map upperChar⟩

/-- `queryset.order_by(...).first()`: the first element under the strict
order `lt` (earliest listed among ties). -/
def firstBy (lt : α → α → Bool) : List α → Option α
  | [] => none
  | a :: as =>
    match firstBy lt as with
    | none => some a
    | some m => some (if lt m a then m else a)

structure ViewRace where
  id : Nat
  year : Int
  roundNumber : Int
  currentLap : Nat
  totalLaps : Nat
  isRunning : Bool
  dataLoaded : Bool
  deriving Repr, DecidableEq

structure ViewDriver where
  id : Nat
  raceId : Nat
  abbreviation : String
  gridPosition : Nat
  deriving Repr, DecidableEq

/-- A stored `Telemetry` row: six JSON text columns (models.py 151-165). -/
structure TelRow where
  raceId : Nat
  driverId : Nat
  lapNumber : Nat
  distance : String
  speed : String
  throttle : String
  brake : String
  gear : String
  drs : String
  deriving Repr, DecidableEq

/-- `Race` default ordering `['-year', '-round_number']` (models.py 34). -/
def raceOrder (a b : ViewRace) : Bool :=
  b.year < a.year || (a.year == b.year && b.roundNumber < a.roundNumber)

/-- `Driver` default ordering `['grid_position']` (models.py 54). -/
def driverOrder (a b : ViewDriver) : Bool :=
  a.gridPosition < b.gridPosition

/-- `order_by('-lap_number')` on `Telemetry` (views.py 210-212). -/
def telOrder (a b : TelRow) : Bool :=
  b.lapNumber < a.lapNumber

/-- `_get_active_race` (views.py 12-17): the first running race, else the
loaded race with the highest id. -/
def getActiveRace (races : List ViewRace) : Option ViewRace :=
  match firstBy raceOrder (races.filter (·.isRunning)) with
  | some r => some r
  | none => firstBy (fun a b => b.id < a.id) (races.filter (·.dataLoaded))

structure RankingEntry where
  position : Nat
  abbreviation : String
  lapTime : String
  delta : String
  deriving Repr, DecidableEq

structure RankingResponse where
  status : String
  drivers : List RankingEntry
  deriving Repr, DecidableEq

/-- `api_ranking` (views.py 60-155).  In the source, the whole block
computing the lap-0 roster response (views.py 66-94) is indented under
the `if not race:` branch AFTER its `return`, so it is dead code, and no
statement on the live path (nor anywhere in the module) ever assigns
`current_lap`; the first live read
`LapTiming.objects.filter(race=race, lap_number=current_lap)`
(views.py 96-97) therefore raises `NameError`, which surfaces as an HTTP
500 instead of a JSON response. -/
def apiRanking (races : List ViewRace) : Except String RankingResponse :=
  match getActiveRace races with
  | none => .ok ⟨"no_race", []⟩
  | some _race => .error "NameError: name 'current_lap' is not defined"

structure TelPayload where
  distance : String
  speed : String
  throttle : String
  brake : String
  gear : String
  drs : String
  deriving Repr, DecidableEq

structure TelemetryResponse where
  status : String
  driver : Option String
  lap : Option Nat
  telemetry : Option TelPayload
  deriving Repr, DecidableEq

/-- `api_telemetry` (views.py 197-237): resolve the active race, look up
the driver by upper-cased abbreviation, then take the stored telemetry
row with the highest `lap_number ≤ current_lap`; a missing row yields
`status: ok` with `lap` and `telemetry` null. -/
def apiTelemetry (races : List ViewRace) (drivers : List ViewDriver)
    (tels : List TelRow) (abbr : String) : TelemetryResponse :=
  match getActiveRace races with
  | none => ⟨"no_race", none, none, none⟩
  | some race =>
    match firstBy driverOrder (drivers.filter
        (fun d => d.raceId == race.id && d.abbreviation == pyUpper abbr)) with
    | none => ⟨"error", none, none, none⟩
    | some driver =>
      match firstBy telOrder (tels.filter
          (fun t => t.raceId == race.id && t.driverId == driver.id &&
            t.lapNumber ≤ race.currentLap)) with
      | none => ⟨"ok", some (pyUpper abbr), none, none⟩
      | some tel =>
        ⟨"ok", some (pyUpper abbr), some tel.lapNumber,
          some ⟨tel.distance, tel.speed, tel.throttle, tel.brake, tel.gear, tel.drs⟩⟩

/-! ## Telemetry sampling (load_race.py 444-504)

`_save_telemetry` takes each selected lap's telemetry frame `tel`; when
it has more than 200 rows it keeps `tel.iloc[::step].head(200)` with
`step = len(tel) // 200`, then stores each column through `safe_list`,
which rounds to one decimal place and coerces NaN to 0.  A NaN float is
embedded as `none`. -/

/-- One row of the telemetry frame (columns read in load_race.py
492-497). -/
structure TelPoint where
  distance : Option ℚ
  speed : Option ℚ
  throttle : Option ℚ
  brake : Option ℚ
  gear : Option ℚ
  drs : Option ℚ
  deriving Repr, DecidableEq

/-- `frame.iloc[::step]`: the rows at indices 0, step, 2·step, …. -/
def strideList : List α → Nat → List α
  | [], _ => []
  | a :: as, step => a :: strideList (as.drop (step - 1)) step
termination_by xs => xs.length
decreasing_by simp; omega

/-- The downsampling of load_race.py 479-481: series longer than 200
points keep every `(len // 200)`-th row, truncated to the first 200. -/
def samplePoints (xs : List α) : List α :=
  if 200 < xs.length then (strideList xs (xs.length / 200)).take 200
  else xs

/-- The effective stride of `samplePoints`. -/
def sampleStep (n : Nat) : Nat :=
  if 200 < n then n / 200 else 1

/-- Python `round(x, 1)` scaled to an integer: round half to even. -/
def roundHalfEven (x : ℚ) : ℤ :=
  let f := ⌊x⌋
  let r := x - f
  if r < 1/2 then f
  else if 1/2 < r then f + 1
  else if f % 2 = 0 then f else f + 1

/-- Python `round(x, 1)`: one decimal place. -/
def pyRound1 (x : ℚ) : ℚ := (roundHalfEven (10 * x) : ℚ) / 10

/-- One element of `safe_list` (load_race.py 483-486): NaN becomes 0,
anything else is rounded to one decimal place. -/
def safeVal : Option ℚ → ℚ
  | none => 0
  | some q => pyRound1 q

/-- `safe_list(series)`. -/
def safeList (xs : List (Option ℚ)) : List ℚ := xs.map safeVal

/-- The six parallel JSON arrays stored for one telemetry row. -/
structure StoredTel where
  distance : List ℚ
  speed : List ℚ
  throttle : List ℚ
  brake : List ℚ
  gear : List ℚ
  drs : List ℚ
  deriving Repr, DecidableEq

/-- The `Telemetry.objects.create` call (load_race.py 488-498): sample
the frame once, then run each column through `safe_list`; `gear`/`drs`
fall back to the empty array when the frame lacks the column. -/
def buildTelemetry (points : List TelPoint) (hasGear hasDRS : Bool) : StoredTel :=
  let tel := samplePoints points
  { distance := safeList (tel.map (·.distance)),
    speed := safeList (tel.map (·.speed)),
    throttle := safeList (tel.map (·.throttle)),
    brake := safeList (tel.map (·.brake)),
    gear := if hasGear then safeList (tel.map (·.gear)) else [],
    drs := if hasDRS then safeList (tel.map (·.drs)) else [] }

/-! ## Tyre stint derivation (load_race.py 371-442)

`_save_tyre_stints` walks each driver's laps in lap-number order.  When
the (normalized) compound differs from the previous lap's it closes the
open stint at `lap_num - 1` and creates a new one with `end_lap = None`;
otherwise it refreshes the open stint's tyre age and provisional
`end_lap = lap_num`; at the end the last stint's `end_lap` is set to the
driver's final lap. -/

/-- The per-lap fields the stint walk reads, with the compound already
passed through `str(...).upper()`. -/
structure StintLap where
  lapNumber : Nat
  compound : String
  tyreLife : Nat
  fresh : Bool
  deriving Repr, DecidableEq

/-- A `TyreStint` row (models.py 123-148). -/
structure Stint where
  stintNumber : Nat
  compound : String
  startLap : Nat
  endLap : Option Nat
  tyreAge : Nat
  isNew : Bool
  deriving Repr, DecidableEq

/-- `'NAN'` and `''` normalize to `'UNKNOWN'` (load_race.py 386-388). -/
def normCompound (c : String) : String :=
  if c = "NAN" || c = "" then "UNKNOWN" else c

def allowedCompounds : List String :=
  ["SOFT", "MEDIUM", "HARD", "INTERMEDIATE", "WET"]

/-- The compound string actually stored (load_race.py 422). -/
def storedCompound (c : String) : String :=
  if c ∈ allowedCompounds then c else "UNKNOWN"

/-- The loop state of the walk: `stint_num`, `current_compound`, and the
driver's `TyreStint` rows created so far. -/
structure StintState where
  stintNum : Nat
  currentCompound : Option String
  stints : List Stint
  deriving Repr, DecidableEq

def initStintState : StintState := ⟨0, none, []⟩

/-- `TyreStint.objects.filter(..., stint_number=n).update(...)`. -/
def updateStint (n : Nat) (f : Stint → Stint) (ss : List Stint) : List Stint :=
  ss.map (fun s => if s.stintNumber = n then f s else s)

/-- "Uzavři předchozí stint" (load_race.py 408-412): when a compound
change is seen at `lapNum`, the open stint's `end_lap` becomes
`lapNum - 1`. -/
def closeOpenStint (st : StintState) (lapNum : Nat) : List Stint :=
  if st.currentCompound.isSome ∧ 0 < st.stintNum then
    updateStint st.stintNum
      (fun s => { s with endLap := some (lapNum - 1) }) st.stints
  else st.stints

/-- The `TyreStint.objects.create` row of a compound change
(load_race.py 418-427). -/
def newStint (st : StintState) (compound : String) (lap : StintLap) : Stint :=
  { stintNumber := st.stintNum + 1,
    compound := storedCompound compound,
    startLap := lap.lapNumber,
    endLap := none,
    tyreAge := lap.tyreLife,
    isNew := lap.fresh }

/-- One iteration of the lap walk (load_race.py 385-433). -/
def stintStep (st : StintState) (lap : StintLap) : StintState :=
  let compound := normCompound lap.compound
  if some compound ≠ st.currentCompound then
    { stintNum := st.stintNum + 1,
      currentCompound := some compound,
      stints := closeOpenStint st lap.lapNumber ++ [newStint st compound lap] }
  else
    { st with
      stints := updateStint st.stintNum
        (fun s => { s with tyreAge := lap.tyreLife, endLap := some lap.lapNumber })
        st.stints }

/-- `end_lap` finalization of the last stint (load_race.py 436-440). -/
def finalizeStints (st : StintState) (lastLap : Nat) : List Stint :=
  if 0 < st.stintNum then
    updateStint st.stintNum (fun s => { s with endLap := some lastLap }) st.stints
  else st.stints

/-- `_save_tyre_stints` restricted to one driver with laps already sorted
by lap number; an empty lap list is skipped (load_race.py 378-379). -/
def deriveStints (laps : List StintLap) : List Stint :=
  match laps.getLast? with
  | none => []
  | some last => finalizeStints (laps.foldl stintStep initStintState) last.lapNumber

/-- The intermediate loop state after the first `k` laps of the walk,
before the final stint is finalized. -/
def stintsAfter (laps : List StintLap) (k : Nat) : StintState :=
  (laps.take k).foldl stintStep initStintState

/-- The number of a driver's stint rows with a null `end_lap`. -/
def countOpen (ss : List Stint) : Nat :=
  (ss.filter (fun s => s.endLap.isNone)).length

/-- Walk invariant needed for the open-stint count: stint numbers are the
row's position plus one, `stint_num` is the row count, every row but the
last is closed, and no row exists before the first compound is seen. -/
structure OpenInv (st : StintState) : Prop where
  numLen : st.stintNum = st.stints.length
  numbering : ∀ i a, st.stints[i]? = some a → a.stintNumber = i + 1
  allButLastClosed : ∀ i a, st.stints[i]? = some a →
    i + 1 < st.stints.length → a.endLap.isSome
  noneEmpty : st.currentCompound = none → st.stints = []


/-- Walk invariant for contiguity: consecutive stints meet at
`end_lap = next start_lap - 1` with strictly increasing start laps, all
start laps lie in `[1, maxLap]` where `maxLap` is the last lap scanned,
and the state is live (a compound has been seen). -/
structure WalkInv (maxLap : Nat) (st : StintState) : Prop where
  contiguous : ∀ i a b, st.stints[i]? = some a → st.stints[i + 1]? = some b →
    a.endLap = some (b.startLap - 1) ∧ a.startLap < b.startLap
  bounds : ∀ a ∈ st.stints, 1 ≤ a.startLap ∧ a.startLap ≤ maxLap
  nonempty : st.stints ≠ []
  compoundSome : st.currentCompound.isSome
  maxPos : 1 ≤ maxLap

/-! ## Delta computation (load_race.py 292-333)

`_compute_deltas` walks lap numbers 1..total_laps.  For each lap it takes
the lap's timing rows ordered by position, picks the leader (the
position-1 row, else the first row), computes every race driver's
cumulative sum of non-null lap times over laps ≤ the current lap, and
writes `delta_to_leader_ms = own cumulative − leader cumulative` into
each of the lap's rows (null when the driver has no cumulative data).
Lap times (float ms in the source) are embedded as rationals; a null
`lap_time_ms` is `none`. -/

/-- A `LapTiming` row restricted to the fields the delta pass reads and
writes (models.py 61-76). -/
structure LapRow where
  driverId : Nat
  lapNumber : Nat
  position : Nat
  lapTimeMs : Option ℚ
  deltaToLeaderMs : Option ℚ
  deriving Repr, DecidableEq

/-- The lap's timing rows
(`LapTiming.objects.filter(race=race, lap_number=lap_num)`,
load_race.py 297-299). -/
def lapRows (rows : List LapRow) (lap : Nat) : List LapRow :=
  rows.filter (fun r => r.lapNumber == lap)

/-- The non-null lap times of driver `d` over laps ≤ `lap`
(load_race.py 312-316). -/
def lapTimesUpTo (rows : List LapRow) (d lap : Nat) : List ℚ :=
  (rows.filter (fun r =>
    r.driverId == d && r.lapNumber ≤ lap && r.lapTimeMs.isSome)).filterMap
    (·.lapTimeMs)

/-- `cumulative[drv.id]`: present only when the driver has at least one
non-null lap time at or before `lap` (`if total:` — load_race.py
317-318). -/
def cumulativeTime (rows : List LapRow) (d lap : Nat) : Option ℚ :=
  let ts := lapTimesUpTo rows d lap
  if ts.isEmpty then none else some ts.sum

/-- `cumulative.get(driver_id)`: the dict only holds the race's drivers
(load_race.py 311). -/
def cumLookup (rows : List LapRow) (drivers : List Nat) (d lap : Nat) : Option ℚ :=
  if d ∈ drivers then cumulativeTime rows d lap else none

/-- The leader of a lap's rows: the first position-1 row under the
position ordering, else the first row (`timings.filter(position=1)
.first()` / `timings.first()`, load_race.py 304-307). -/
def leaderOf (timings : List LapRow) : Option LapRow :=
  match timings.filter (fun r => r.position == 1) with
  | r :: _ => some r
  | [] => firstBy (fun a b => a.position < b.position) timings

def leaderAt (rows : List LapRow) (lap : Nat) : Option LapRow :=
  leaderOf (lapRows rows lap)

/-- One lap iteration of `_compute_deltas` (load_race.py 296-333): the
guard `continue`s leave the rows untouched; otherwise every row of the
lap gets `delta_to_leader_ms` rewritten. -/
def computeDeltasLap (drivers : List Nat) (rows : List LapRow) (lapNum : Nat) :
    List LapRow :=
  let timings := lapRows rows lapNum
  if timings.isEmpty then rows
  else
    match leaderOf timings with
    | none => rows
    | some leader =>
      if (drivers.filter
          (fun d => (cumulativeTime rows d lapNum).isSome)).isEmpty then rows
      else
        match cumLookup rows drivers leader.driverId lapNum with
        | none => rows
        | some leaderTotal =>
          rows.map (fun r =>
            if r.lapNumber = lapNum then
              let dt := (cumLookup rows drivers r.driverId lapNum).map
                (fun t => t - leaderTotal)
              { r with deltaToLeaderMs := dt }
            else r)

/-- `_compute_deltas` over `list(range(1, race.total_laps + 1))`
(load_race.py 294-296). -/
def computeDeltas (drivers : List Nat) (rows : List LapRow) (total : Nat) :
    List LapRow :=
  (List.range' 1 total).foldl (computeDeltasLap drivers) rows

-- ===== THEOREMS =====

theorem mem_of_getElem?_eq {l : List α} {i : Nat} {a : α} (h : l[i]? = some a) :
    a ∈ l := by
  rcases List.getElem?_eq_some.mp h with ⟨hlt, hget⟩
  exact hget ▸ List.getElem_mem hlt


theorem simLoop_spec (scLaps vscLaps : List Nat) (r : SimRace)
    (h : r.currentLap ≤ r.totalLaps) :
    (simLoop scLaps vscLaps r).1.currentLap = r.totalLaps ∧
    (simLoop scLaps vscLaps r).1.totalLaps = r.totalLaps ∧
    (simLoop scLaps vscLaps r).1.isRunning = r.isRunning ∧
    (simLoop scLaps vscLaps r).1.isFinished = r.isFinished ∧
    (simLoop scLaps vscLaps r).1.dataLoaded = r.dataLoaded ∧
    (simLoop scLaps vscLaps r).2 = r.totalLaps - r.currentLap := by
  by_cases hlt : r.currentLap < r.totalLaps
  · have ih := simLoop_spec scLaps vscLaps (simTick scLaps vscLaps r)
      (by simp [simTick]; omega)
    rw [simLoop, if_pos hlt]
    obtain ⟨h1, h2, h3, h4, h5, h6⟩ := ih
    simp only [simTick] at h1 h2 h3 h4 h5 h6 ⊢
    refine ⟨h1, h2, h3, h4, h5, ?_⟩
    omega
  · rw [simLoop, if_neg hlt]
    simp
    omega
termination_by r.totalLaps - r.currentLap
decreasing_by simp [simTick]; omega

theorem simTrace_all (scLaps vscLaps : List Nat) (r : SimRace) :
    ∀ s ∈ simTrace scLaps vscLaps r,
      s.safetyCar = scFor scLaps vscLaps s.currentLap := by
  intro s hs
  by_cases hlt : r.currentLap < r.totalLaps
  · rw [simTrace, if_pos hlt] at hs
    rcases List.mem_cons.mp hs with h | h
    · subst h; rfl
    · exact simTrace_all scLaps vscLaps (simTick scLaps vscLaps r) s h
  · rw [simTrace, if_neg hlt] at hs
    exact absurd hs (List.not_mem_nil s)
termination_by r.totalLaps - r.currentLap
decreasing_by simp [simTick]; omega

theorem simTrace_currentLap (scLaps vscLaps : List Nat) (r : SimRace) :
    ∀ i s, (simTrace scLaps vscLaps r)[i]? = some s →
      s.currentLap = r.currentLap + i + 1 := by
  intro i s hs
  by_cases hlt : r.currentLap < r.totalLaps
  · rw [simTrace, if_pos hlt] at hs
    match i with
    | 0 =>
      simp at hs
      rw [← hs]
      simp [simTick]
    | i + 1 =>
      simp only [List.getElem?_cons_succ] at hs
      have ih := simTrace_currentLap scLaps vscLaps (simTick scLaps vscLaps r) i s hs
      simp only [simTick] at ih
      omega
  · rw [simTrace, if_neg hlt] at hs
    simp at hs
termination_by r.totalLaps - r.currentLap
decreasing_by simp [simTick]; omega

/-- C5: a race with `data_loaded = true`, `total_laps = N`, `current_lap = 0`
run uninterrupted performs exactly `N` tick advances and ends with
`current_lap = N`, `is_finished = true`, `is_running = false`, and
`safety_car = NONE`. -/
theorem simulator_termination (scLaps vscLaps : List Nat) (r : SimRace) (N : Nat)
    (hload : r.dataLoaded = true) (htot : r.totalLaps = N) (hcur : r.currentLap = 0) :
    (simRun scLaps vscLaps r).2 = N ∧
    (simRun scLaps vscLaps r).1.currentLap = N ∧
    (simRun scLaps vscLaps r).1.isFinished = true ∧
    (simRun scLaps vscLaps r).1.isRunning = false ∧
    (simRun scLaps vscLaps r).1.safetyCar = "NONE" := by
  obtain ⟨h1, h2, h3, h4, h5, h6⟩ := simLoop_spec scLaps vscLaps
    { r with isRunning := true, isFinished := false } (by simp; omega)
  simp only [simRun]
  simp at h1 h6
  refine ⟨by omega, by omega, by trivial, by trivial, by trivial⟩

theorem simulator_termination_witness :
    (simRun [2] [] ⟨0, 3, false, false, "NONE", true⟩).2 = 3 ∧
    (simRun [2] [] ⟨0, 3, false, false, "NONE", true⟩).1.currentLap = 3 ∧
    (simRun [2] [] ⟨0, 3, false, false, "NONE", true⟩).1.isFinished = true ∧
    (simRun [2] [] ⟨0, 3, false, false, "NONE", true⟩).1.isRunning = false ∧
    (simRun [2] [] ⟨0, 3, false, false, "NONE", true⟩).1.safetyCar = "NONE" :=
  simulator_termination [2] [] ⟨0, 3, false, false, "NONE", true⟩ 3 rfl rfl rfl

/-- C6: every race state persisted during the simulator loop carries the
safety-car value recomputed from its own lap: `SC` if the lap is in the
SC set, else `VSC` if in the VSC set, else `NONE`; the state after the
i-th tick is at lap `current_lap + i + 1`, so no safety-car value
persists from an earlier lap. -/
theorem safety_car_lap_local (scLaps vscLaps : List Nat) (r : SimRace) :
    ∀ i s, (simTrace scLaps vscLaps r)[i]? = some s →
      s.currentLap = r.currentLap + i + 1 ∧
      s.safetyCar =
        (if r.currentLap + i + 1 ∈ scLaps then "SC"
         else if r.currentLap + i + 1 ∈ vscLaps then "VSC"
         else "NONE") := by
  intro i s hs
  have h1 := simTrace_currentLap scLaps vscLaps r i s hs
  have hmem : s ∈ simTrace scLaps vscLaps r := by
    rcases List.getElem?_eq_some.mp hs with ⟨hlt, hget⟩
    exact hget ▸ List.getElem_mem hlt
  have h2 := simTrace_all scLaps vscLaps r s hmem
  exact ⟨h1, by rw [h2, h1]; rfl⟩

/-- C7: when the `(year, round)` race already has `data_loaded = true`,
`load_race` without `--force` returns the early warning (before any
write), and with `--force` the guard hands the loader the database with
the race row and all of its cascade children deleted. -/
theorem reload_guard (db : LoaderDB) (y rd : Int) (e : RaceRow) (newId : Nat)
    (he : (raceFilter db y rd).head? = some e) (hl : e.dataLoaded = true) :
    loadRace db y rd false newId = .warned ∧
    applyGuard db y rd true = some (deleteRace db e) ∧
    (∀ r ∈ (deleteRace db e).races, r.id ≠ e.id) ∧
    (∀ c ∈ (deleteRace db e).children, c.raceId ≠ e.id) := by
  refine ⟨?_, ?_, ?_, ?_⟩
  · simp [loadRace, applyGuard, he, hl]
  · simp [applyGuard, he, hl]
  · intro r hr
    exact of_decide_eq_true (List.mem_filter.mp hr).2
  · intro c hc
    exact of_decide_eq_true (List.mem_filter.mp hc).2

theorem reload_guard_witness :
    (raceFilter ⟨[⟨1, 2024, 1, true⟩], [⟨1⟩, ⟨1⟩]⟩ 2024 1).head? =
        some ⟨1, 2024, 1, true⟩ ∧
    loadRace ⟨[⟨1, 2024, 1, true⟩], [⟨1⟩, ⟨1⟩]⟩ 2024 1 false 2 = .warned ∧
    applyGuard ⟨[⟨1, 2024, 1, true⟩], [⟨1⟩, ⟨1⟩]⟩ 2024 1 true =
      some (deleteRace ⟨[⟨1, 2024, 1, true⟩], [⟨1⟩, ⟨1⟩]⟩ ⟨1, 2024, 1, true⟩) := by
  have h := reload_guard ⟨[⟨1, 2024, 1, true⟩], [⟨1⟩, ⟨1⟩]⟩ 2024 1
    ⟨1, 2024, 1, true⟩ 2 (by decide) rfl
  exact ⟨by decide, h.1, h.2.1⟩

/-- C10 (implicit): the early-return guard fires only when
`data_loaded = true`.  An existing `(year, round)` row with
`data_loaded = false` and no `--force` is neither warned about nor
deleted; loading proceeds and the `Race.objects.create` insert collides
with the `unique_together = ['year', 'round_number']` constraint. -/
theorem load_guard_requires_data_loaded (db : LoaderDB) (y rd : Int) (e : RaceRow)
    (newId : Nat)
    (he : (raceFilter db y rd).head? = some e) (hl : e.dataLoaded = false) :
    loadRace db y rd false newId = .uniqueViolation db ∧
    e.year = y ∧ e.roundNumber = rd := by
  have hmem : e ∈ raceFilter db y rd := List.mem_of_mem_head? he
  have hkey := (List.mem_filter.mp hmem).2
  simp at hkey
  have hne : ¬ (raceFilter db y rd).isEmpty := by
    cases hfilter : raceFilter db y rd with
    | nil => rw [hfilter] at he; simp at he
    | cons a l => simp [hfilter]
  refine ⟨?_, hkey.1, hkey.2⟩
  simp [loadRace, applyGuard, he, hl, hne]

theorem load_guard_requires_data_loaded_witness :
    (raceFilter ⟨[⟨1, 2024, 1, false⟩], []⟩ 2024 1).head? =
        some ⟨1, 2024, 1, false⟩ ∧
    loadRace ⟨[⟨1, 2024, 1, false⟩], []⟩ 2024 1 false 2 =
      .uniqueViolation ⟨[⟨1, 2024, 1, false⟩], []⟩ :=
  ⟨by decide,
   (load_guard_requires_data_loaded ⟨[⟨1, 2024, 1, false⟩], []⟩ 2024 1
     ⟨1, 2024, 1, false⟩ 2 (by decide) rfl).1⟩

theorem safety_car_lap_local_witness :
    (⟨9, 9, true, false, "NONE", true⟩ : SimRace).currentLap = 7 + 1 + 1 ∧
    (⟨9, 9, true, false, "NONE", true⟩ : SimRace).safetyCar =
      (if 7 + 1 + 1 ∈ [8] then "SC"
       else if 7 + 1 + 1 ∈ ([] : List Nat) then "VSC"
       else "NONE") :=
  safety_car_lap_local [8] [] ⟨7, 9, true, false, "SC", true⟩ 1
    ⟨9, 9, true, false, "NONE", true⟩ (by simp [simTrace, simTick, scFor])

theorem firstBy_mem (lt : α → α → Bool) (l : List α) (x : α)
    (h : firstBy lt l = some x) : x ∈ l := by
  induction l with
  | nil => simp [firstBy] at h
  | cons a t ih =>
    rw [firstBy] at h
    cases hm : firstBy lt t with
    | none =>
      rw [hm] at h
      have := Option.some_inj.mp h
      rw [← this]
      exact List.mem_cons_self a t
    | some m =>
      rw [hm] at h
      have hx := Option.some_inj.mp h
      cases hcmp : lt m a with
      | true =>
        rw [hcmp, if_pos rfl] at hx
        exact List.mem_cons_of_mem a (ih (by rw [hm, hx]))
      | false =>
        rw [hcmp] at hx
        simp at hx
        rw [← hx]
        exact List.mem_cons_self a t

theorem leaderOf_mem (timings : List LapRow) (x : LapRow)
    (h : leaderOf timings = some x) : x ∈ timings := by
  rw [leaderOf] at h
  split at h
  · rename_i r rest hfil
    have hmem : r ∈ timings.filter (fun r => r.position == 1) := by
      rw [hfil]
      exact List.mem_cons_self _ _
    rw [← Option.some_inj.mp h]
    exact (List.mem_filter.mp hmem).1
  · exact firstBy_mem _ _ _ h

theorem lapTimesUpTo_map (g : LapRow → LapRow)
    (hg : ∀ r : LapRow, (g r).driverId = r.driverId ∧
      (g r).lapNumber = r.lapNumber ∧ (g r).lapTimeMs = r.lapTimeMs)
    (rows : List LapRow) (d lap : Nat) :
    lapTimesUpTo (rows.map g) d lap = lapTimesUpTo rows d lap := by
  induction rows with
  | nil => rfl
  | cons r t ih =>
    simp only [lapTimesUpTo, List.map_cons, List.filter_cons] at ih ⊢
    rw [(hg r).1, (hg r).2.1, (hg r).2.2]
    split
    · simp only [List.filterMap_cons, (hg r).2.2]
      rw [ih]
    · exact ih

theorem lapRows_map_id (L : Nat) (g : LapRow → LapRow)
    (hg : ∀ r : LapRow, (g r).lapNumber = r.lapNumber)
    (hid : ∀ r : LapRow, r.lapNumber = L → g r = r)
    (rows : List LapRow) :
    lapRows (rows.map g) L = lapRows rows L := by
  induction rows with
  | nil => rfl
  | cons r t ih =>
    simp only [lapRows, List.map_cons, List.filter_cons] at ih ⊢
    rw [hg r]
    by_cases h : r.lapNumber = L
    · rw [if_pos (by simp [h]), if_pos (by simp [h]), hid r h, ih]
    · rw [if_neg (by simp [h]), if_neg (by simp [h]), ih]

theorem computeDeltasLap_cases (drivers : List Nat) (rows : List LapRow)
    (lapNum : Nat) :
    computeDeltasLap drivers rows lapNum = rows ∨
    ∃ g : LapRow → LapRow,
      computeDeltasLap drivers rows lapNum = rows.map g ∧
      (∀ r : LapRow, (g r).driverId = r.driverId ∧
        (g r).lapNumber = r.lapNumber ∧ (g r).position = r.position ∧
        (g r).lapTimeMs = r.lapTimeMs) ∧
      (∀ r : LapRow, r.lapNumber ≠ lapNum → g r = r) := by
  rw [computeDeltasLap]
  split
  · exact Or.inl rfl
  · split
    · exact Or.inl rfl
    · split
      · exact Or.inl rfl
      · split
        · exact Or.inl rfl
        · refine Or.inr ⟨_, rfl, ?_, ?_⟩
          · intro r
            by_cases h : r.lapNumber = lapNum <;> simp [h]
          · intro r h
            simp [h]

theorem cumulativeTime_step (drivers : List Nat) (rows : List LapRow)
    (lapNum d lap : Nat) :
    cumulativeTime (computeDeltasLap drivers rows lapNum) d lap =
      cumulativeTime rows d lap := by
  rcases computeDeltasLap_cases drivers rows lapNum with h | ⟨g, hg, hfields, _⟩
  · rw [h]
  · rw [hg, cumulativeTime, cumulativeTime,
      lapTimesUpTo_map g
        (fun r => ⟨(hfields r).1, (hfields r).2.1, (hfields r).2.2.2⟩) rows d lap]

theorem lapRows_step_ne (drivers : List Nat) (rows : List LapRow)
    (lapNum L : Nat) (hne : lapNum ≠ L) :
    lapRows (computeDeltasLap drivers rows lapNum) L = lapRows rows L := by
  rcases computeDeltasLap_cases drivers rows lapNum with h | ⟨g, hg, hfields, hid⟩
  · rw [h]
  · rw [hg, lapRows_map_id L g (fun r => (hfields r).2.1)
      (fun r hr => hid r (by rw [hr]; exact Ne.symm hne)) rows]

theorem getElem?_step_ne (drivers : List Nat) (rows : List LapRow)
    (lapNum L : Nat) (hne : lapNum ≠ L) (i : Nat) (r : LapRow)
    (hr : rows[i]? = some r) (hL : r.lapNumber = L) :
    (computeDeltasLap drivers rows lapNum)[i]? = some r := by
  rcases computeDeltasLap_cases drivers rows lapNum with h | ⟨g, hg, _, hid⟩
  · rw [h]; exact hr
  · rw [hg, List.getElem?_map, hr]
    simp only [Option.map_some']
    rw [hid r (by rw [hL]; exact Ne.symm hne)]

theorem cumulativeTime_foldl (drivers : List Nat) (ls : List Nat)
    (rows : List LapRow) (d lap : Nat) :
    cumulativeTime (ls.foldl (computeDeltasLap drivers) rows) d lap =
      cumulativeTime rows d lap := by
  induction ls generalizing rows with
  | nil => rfl
  | cons x t ih => rw [List.foldl_cons, ih, cumulativeTime_step]

theorem lapRows_foldl_ne (drivers : List Nat) (ls : List Nat)
    (rows : List LapRow) (L : Nat) (h : ∀ x ∈ ls, x ≠ L) :
    lapRows (ls.foldl (computeDeltasLap drivers) rows) L = lapRows rows L := by
  induction ls generalizing rows with
  | nil => rfl
  | cons x t ih =>
    rw [List.foldl_cons, ih _ (fun y hy => h y (List.mem_cons_of_mem x hy)),
      lapRows_step_ne drivers rows x L (h x (List.mem_cons_self x t))]

theorem getElem?_foldl_ne (drivers : List Nat) (ls : List Nat)
    (rows : List LapRow) (L : Nat) (h : ∀ x ∈ ls, x ≠ L) (i : Nat) (r : LapRow)
    (hr : rows[i]? = some r) (hL : r.lapNumber = L) :
    (ls.foldl (computeDeltasLap drivers) rows)[i]? = some r := by
  induction ls generalizing rows with
  | nil => exact hr
  | cons x t ih =>
    rw [List.foldl_cons]
    exact ih _ (fun y hy => h y (List.mem_cons_of_mem x hy))
      (getElem?_step_ne drivers rows x L (h x (List.mem_cons_self x t)) i r hr hL)

theorem computeDeltasLap_getElem (drivers : List Nat) (rows : List LapRow)
    (L : Nat) (ldr : LapRow) (hldr : leaderOf (lapRows rows L) = some ldr)
    (lt : ℚ) (hlook : cumLookup rows drivers ldr.driverId L = some lt)
    (hdict : ¬((drivers.filter
      (fun d => (cumulativeTime rows d L).isSome)).isEmpty = true))
    (htimne : ¬((lapRows rows L).isEmpty = true))
    (i : Nat) (r : LapRow) (hr : rows[i]? = some r) (hrL : r.lapNumber = L) :
    (computeDeltasLap drivers rows L)[i]? = some
      { r with deltaToLeaderMs :=
          (cumLookup rows drivers r.driverId L).map (fun t => t - lt) } := by
  rw [computeDeltasLap]
  simp only [if_neg htimne, hldr, if_neg hdict, hlook]
  rw [List.getElem?_map, hr]
  simp only [Option.map_some']
  rw [if_pos hrL]

/-- C1: delta correctness.  For every lap `L` in `[1, total]` and every
timing row of lap `L`, after `_compute_deltas` the row's
`delta_to_leader_ms` equals the driver's cumulative sum of non-null lap
times over laps ≤ L minus the leader's; the leader's own delta is 0, and
a driver with no non-null lap time at or before L keeps a null delta.
Preconditions: the leader of lap L (position-1 row, else first row)
exists with at least one non-null lap time at or before L, and every
row's driver is a race driver. -/
theorem delta_correctness (drivers : List Nat) (rows : List LapRow)
    (total L : Nat) (hL1 : 1 ≤ L) (hL2 : L ≤ total)
    (hdrv : ∀ r ∈ rows, r.driverId ∈ drivers)
    (ldr : LapRow) (hldr : leaderAt rows L = some ldr)
    (lt : ℚ) (hlt : cumulativeTime rows ldr.driverId L = some lt)
    (i : Nat) (r : LapRow) (hri : rows[i]? = some r) (hrL : r.lapNumber = L) :
    ∃ r' : LapRow, (computeDeltas drivers rows total)[i]? = some r' ∧
      r'.driverId = r.driverId ∧ r'.lapNumber = r.lapNumber ∧
      r'.position = r.position ∧ r'.lapTimeMs = r.lapTimeMs ∧
      r'.deltaToLeaderMs =
        (cumulativeTime rows r.driverId L).map (fun t => t - lt) ∧
      (r.driverId = ldr.driverId → r'.deltaToLeaderMs = some 0) ∧
      (cumulativeTime rows r.driverId L = none →
        r'.deltaToLeaderMs = none) := by
  -- split the lap range around L
  have hsplit : List.range' 1 total =
      List.range' 1 (L - 1) ++ (L :: List.range' (L + 1) (total - L)) := by
    have h1 := List.range'_append 1 (L - 1) (total - L + 1) 1
    rw [show 1 + 1 * (L - 1) = L from by omega] at h1
    rw [show total - L + 1 + (L - 1) = total from by omega] at h1
    rw [← h1, List.range'_succ]
  rw [computeDeltas, hsplit, List.foldl_append, List.foldl_cons]
  -- stage 1: laps 1..L-1 leave lap-L rows untouched and queries invariant
  have hne1 : ∀ x ∈ List.range' 1 (L - 1), x ≠ L := by
    intro x hx
    rw [List.mem_range'_1] at hx
    omega
  have hr1 : ((List.range' 1 (L - 1)).foldl (computeDeltasLap drivers) rows)[i]? =
      some r := getElem?_foldl_ne drivers _ rows L hne1 i r hri hrL
  have hlaprows1 : lapRows ((List.range' 1 (L - 1)).foldl
      (computeDeltasLap drivers) rows) L = lapRows rows L :=
    lapRows_foldl_ne drivers _ rows L hne1
  have hcum1 : ∀ d : Nat, cumulativeTime ((List.range' 1 (L - 1)).foldl
      (computeDeltasLap drivers) rows) d L = cumulativeTime rows d L :=
    fun d => cumulativeTime_foldl drivers _ rows d L
  set rows1 := (List.range' 1 (L - 1)).foldl (computeDeltasLap drivers) rows
    with hrows1
  -- stage 2: the L iteration fires
  have hrmem : r ∈ lapRows rows L := by
    rw [lapRows, List.mem_filter]
    exact ⟨mem_of_getElem?_eq hri, by simp [hrL]⟩
  have htimne : ¬((lapRows rows1 L).isEmpty = true) := by
    rw [hlaprows1]
    cases h : lapRows rows L with
    | nil => rw [h] at hrmem; simp at hrmem
    | cons a t => simp [h]
  have hldr1 : leaderOf (lapRows rows1 L) = some ldr := by
    rw [hlaprows1]
    exact hldr
  have hldrdrv : ldr.driverId ∈ drivers := by
    apply hdrv
    have hmem := leaderOf_mem _ _ hldr
    exact (List.mem_filter.mp hmem).1
  have hdict : ¬((drivers.filter
      (fun d => (cumulativeTime rows1 d L).isSome)).isEmpty = true) := by
    have hmem : ldr.driverId ∈ drivers.filter
        (fun d => (cumulativeTime rows1 d L).isSome) := by
      rw [List.mem_filter]
      refine ⟨hldrdrv, ?_⟩
      rw [hcum1, hlt]
      rfl
    cases h : drivers.filter (fun d => (cumulativeTime rows1 d L).isSome) with
    | nil => rw [h] at hmem; simp at hmem
    | cons a t => simp [h]
  have hlook : cumLookup rows1 drivers ldr.driverId L = some lt := by
    rw [cumLookup, if_pos hldrdrv, hcum1, hlt]
  have hstep := computeDeltasLap_getElem drivers rows1 L ldr hldr1 lt hlook
    hdict htimne i r hr1 hrL
  -- the written delta, reflected back to the original rows
  have hrdrv : r.driverId ∈ drivers := hdrv r (mem_of_getElem?_eq hri)
  have hlookr : cumLookup rows1 drivers r.driverId L =
      cumulativeTime rows r.driverId L := by
    rw [cumLookup, if_pos hrdrv, hcum1]
  rw [hlookr] at hstep
  -- stage 3: laps L+1..total leave the row untouched
  have hne2 : ∀ x ∈ List.range' (L + 1) (total - L), x ≠ L := by
    intro x hx
    rw [List.mem_range'_1] at hx
    omega
  have hfinal := getElem?_foldl_ne drivers (List.range' (L + 1) (total - L))
    (computeDeltasLap drivers rows1 L) L hne2 i
    { r with deltaToLeaderMs :=
        (cumulativeTime rows r.driverId L).map (fun t => t - lt) }
    hstep (by simp [hrL])
  refine ⟨_, hfinal, rfl, rfl, rfl, rfl, rfl, ?_, ?_⟩
  · intro heq
    simp only []
    rw [heq, hlt]
    simp
  · intro hnone
    simp only []
    rw [hnone]
    rfl

theorem delta_correctness_witness :
    (∀ r ∈ [(⟨1, 1, 1, some 90000, none⟩ : LapRow), ⟨2, 1, 2, some 91000, none⟩,
        ⟨1, 2, 1, some 90500, none⟩, ⟨2, 2, 2, none, none⟩],
      r.driverId ∈ [1, 2]) ∧
    (∃ r' : LapRow,
      (computeDeltas [1, 2]
        [(⟨1, 1, 1, some 90000, none⟩ : LapRow), ⟨2, 1, 2, some 91000, none⟩,
         ⟨1, 2, 1, some 90500, none⟩, ⟨2, 2, 2, none, none⟩] 2)[1]? = some r' ∧
      r'.driverId = 2 ∧ r'.lapNumber = 1 ∧ r'.position = 2 ∧
      r'.lapTimeMs = some 91000 ∧
      r'.deltaToLeaderMs = (cumulativeTime
        [(⟨1, 1, 1, some 90000, none⟩ : LapRow), ⟨2, 1, 2, some 91000, none⟩,
         ⟨1, 2, 1, some 90500, none⟩, ⟨2, 2, 2, none, none⟩] 2 1).map
        (fun t => t - 90000)) := by
  refine ⟨by decide, ?_⟩
  have h := delta_correctness [1, 2]
    [(⟨1, 1, 1, some 90000, none⟩ : LapRow), ⟨2, 1, 2, some 91000, none⟩,
     ⟨1, 2, 1, some 90500, none⟩, ⟨2, 2, 2, none, none⟩] 2 1
    (by decide) (by decide) (by decide)
    ⟨1, 1, 1, some 90000, none⟩ (by decide) 90000
    (by simp [cumulativeTime, lapTimesUpTo, List.filter, List.filterMap])
    1 ⟨2, 1, 2, some 91000, none⟩ (by decide) rfl
  rcases h with ⟨r', hget, h1, h2, h3, h4, hdelta, _, _⟩
  exact ⟨r', hget, h1, h2, h3, h4, hdelta⟩

theorem updateStint_getElem? (n : Nat) (f : Stint → Stint) (ss : List Stint) (i : Nat) :
    (updateStint n f ss)[i]? =
      (ss[i]?).map (fun s => if s.stintNumber = n then f s else s) := by
  simp [updateStint]

theorem updateStint_length (n : Nat) (f : Stint → Stint) (ss : List Stint) :
    (updateStint n f ss).length = ss.length := by
  simp [updateStint]

theorem openInv_init : OpenInv initStintState := by
  constructor <;> simp [initStintState]

theorem closeOpenStint_length (st : StintState) (lapNum : Nat) :
    (closeOpenStint st lapNum).length = st.stints.length := by
  rw [closeOpenStint]
  split
  · exact updateStint_length _ _ _
  · rfl

theorem closeOpenStint_empty (st : StintState) (inv : OpenInv st)
    (hguard : ¬(st.currentCompound.isSome ∧ 0 < st.stintNum)) :
    st.stints = [] := by
  cases hc : st.currentCompound with
  | none => exact inv.noneEmpty hc
  | some c =>
    have h0 : ¬ 0 < st.stintNum := fun h => hguard ⟨by rw [hc]; rfl, h⟩
    have h1 : st.stintNum = 0 := by omega
    rw [inv.numLen] at h1
    exact List.eq_nil_of_length_eq_zero h1

theorem openInv_step (st : StintState) (inv : OpenInv st) (lap : StintLap) :
    OpenInv (stintStep st lap) := by
  rw [stintStep]
  split
  · -- compound change: close the open stint, append a fresh one
    refine ⟨?_, ?_, ?_, ?_⟩ <;> simp only []
    · rw [List.length_append, closeOpenStint_length, List.length_cons,
        List.length_nil, inv.numLen]
    · intro i a ha
      rw [List.getElem?_append] at ha
      split at ha
      · rename_i hi
        rw [closeOpenStint_length] at hi
        rw [closeOpenStint] at ha
        split at ha
        · rw [updateStint_getElem?] at ha
          cases hb : st.stints[i]? with
          | none => rw [hb] at ha; simp at ha
          | some b =>
            rw [hb] at ha
            simp only [Option.map_some'] at ha
            have hnum := inv.numbering i b hb
            rw [← Option.some_inj.mp ha]
            split <;> simpa
        · have hnum := inv.numbering i a ha
          exact hnum
      · rename_i hi
        rw [closeOpenStint_length] at hi
        cases hk : i - (closeOpenStint st lap.lapNumber).length with
        | zero =>
          rw [hk] at ha
          simp only [List.getElem?_cons_zero] at ha
          rw [← Option.some_inj.mp ha]
          rw [closeOpenStint_length] at hk
          have h2 := inv.numLen
          simp only [newStint]
          omega
        | succ k =>
          rw [hk] at ha
          simp at ha
    · intro i a ha hlt
      simp only [List.length_append, List.length_cons, List.length_nil] at hlt
      have hlen := closeOpenStint_length st lap.lapNumber
      have hi : i < (closeOpenStint st lap.lapNumber).length := by omega
      rw [List.getElem?_append, if_pos hi] at ha
      rw [closeOpenStint] at ha
      split at ha
      · rename_i hguard
        rw [updateStint_getElem?] at ha
        cases hb : st.stints[i]? with
        | none => rw [hb] at ha; simp at ha
        | some b =>
          rw [hb] at ha
          simp only [Option.map_some'] at ha
          rw [← Option.some_inj.mp ha]
          split
          · simp
          · rename_i hne
            apply inv.allButLastClosed i b hb
            have hnum := inv.numbering i b hb
            have h2 := inv.numLen
            rw [closeOpenStint_length] at hi
            omega
      · rename_i hguard
        rw [closeOpenStint_empty st inv hguard] at ha
        simp at ha
    · intro h
      simp at h
  · -- same compound: refresh the open stint
    refine ⟨?_, ?_, ?_, ?_⟩ <;> simp only []
    · rw [updateStint_length]
      exact inv.numLen
    · intro i a ha
      rw [updateStint_getElem?] at ha
      cases hb : st.stints[i]? with
      | none => rw [hb] at ha; simp at ha
      | some b =>
        rw [hb] at ha
        simp only [Option.map_some'] at ha
        have hnum := inv.numbering i b hb
        rw [← Option.some_inj.mp ha]
        split <;> simpa
    · intro i a ha hlt
      rw [updateStint_length] at hlt
      rw [updateStint_getElem?] at ha
      cases hb : st.stints[i]? with
      | none => rw [hb] at ha; simp at ha
      | some b =>
        rw [hb] at ha
        simp only [Option.map_some'] at ha
        rw [← Option.some_inj.mp ha]
        split
        · simp
        · exact inv.allButLastClosed i b hb hlt
    · intro h
      rename_i hcomp
      rw [not_ne_iff] at hcomp
      rw [h] at hcomp
      exact absurd hcomp (by simp)

theorem openInv_foldl (laps : List StintLap) (st : StintState) (inv : OpenInv st) :
    OpenInv (laps.foldl stintStep st) := by
  induction laps generalizing st with
  | nil => exact inv
  | cons l ls ih => exact ih (stintStep st l) (openInv_step st inv l)

theorem countOpen_le_one (ss : List Stint)
    (h : ∀ i a, ss[i]? = some a → i + 1 < ss.length → a.endLap.isSome) :
    countOpen ss ≤ 1 := by
  induction ss with
  | nil => simp [countOpen]
  | cons x rest ih =>
    cases rest with
    | nil =>
      rw [countOpen]
      simp only [List.filter]
      split <;> simp
    | cons y t =>
      have hx : x.endLap.isSome := h 0 x rfl (by simp)
      have hrest := ih (fun i a hi hlen =>
        h (i + 1) a (by simpa using hi) (by simp at hlen ⊢; omega))
      rw [countOpen] at hrest ⊢
      simp only [List.filter]
      have : x.endLap.isNone = false := by
        rw [Option.isNone_eq_false_iff]
        exact hx
      rw [this]
      exact hrest

/-- C3 counterexample: two consecutive laps on the same compound.  At the
intermediate point after the second lap is scanned (before finalization)
the driver has one stint row and ZERO rows with a null `end_lap` — the
same-compound branch writes the provisional `end_lap = lap_num` into the
open stint — refuting "exactly one null `end_lap` at every intermediate
point". -/
theorem open_stint_exactly_one_false :
    (stintsAfter [⟨1, "SOFT", 1, true⟩, ⟨2, "SOFT", 2, true⟩] 2).stints.length = 1 ∧
    countOpen (stintsAfter [⟨1, "SOFT", 1, true⟩, ⟨2, "SOFT", 2, true⟩] 2).stints
      = 0 := by
  constructor <;> rfl

/-- C3 (amended): at every intermediate point of the stint walk, at most
one of the driver's stint rows has a null `end_lap` — exactly one right
after a compound change opens a stint, zero right after a same-compound
lap stores the provisional `end_lap`. -/
theorem open_stint_at_most_one (laps : List StintLap) (k : Nat) :
    countOpen (stintsAfter laps k).stints ≤ 1 := by
  have inv := openInv_foldl (laps.take k) initStintState openInv_init
  exact countOpen_le_one _ (fun i a ha hlt => inv.allButLastClosed i a ha hlt)

theorem closeOpenStint_spec (st : StintState) (hO : OpenInv st) (lapNum i : Nat)
    (a : Stint) (ha : (closeOpenStint st lapNum)[i]? = some a) :
    ∃ b : Stint, st.stints[i]? = some b ∧ a.stintNumber = b.stintNumber ∧
      a.startLap = b.startLap ∧
      (i + 1 < st.stints.length → a = b) ∧
      (i + 1 = st.stints.length → st.currentCompound.isSome →
        a = { b with endLap := some (lapNum - 1) }) := by
  rw [closeOpenStint] at ha
  split at ha
  · rename_i hguard
    rw [updateStint_getElem?] at ha
    cases hb : st.stints[i]? with
    | none => rw [hb] at ha; simp at ha
    | some b =>
      rw [hb] at ha
      simp only [Option.map_some'] at ha
      have hval := Option.some_inj.mp ha
      have hnum := hO.numbering i b hb
      have hlen := hO.numLen
      refine ⟨b, rfl, ?_, ?_, ?_, ?_⟩
      · rw [← hval]; split <;> simp
      · rw [← hval]; split <;> simp
      · intro hlt
        rw [← hval, if_neg (by omega)]
      · intro heq _
        rw [← hval, if_pos (by omega)]
  · rename_i hguard
    have hempty := closeOpenStint_empty st hO hguard
    rw [hempty] at ha
    simp at ha

theorem walkInv_first (lap : StintLap) (hpos : 1 ≤ lap.lapNumber) :
    WalkInv lap.lapNumber (stintStep initStintState lap) := by
  have hstep : stintStep initStintState lap =
      ⟨1, some (normCompound lap.compound),
       [newStint initStintState (normCompound lap.compound) lap]⟩ := by
    rw [stintStep]
    rw [if_pos (by simp [initStintState])]
    simp [initStintState, closeOpenStint]
  rw [hstep]
  refine ⟨?_, ?_, ?_, ?_, hpos⟩
  · intro i a b _ hb
    have := (List.getElem?_eq_some.mp hb).1
    simp at this
  · intro a hma
    simp only [List.mem_singleton] at hma
    rw [hma]
    simp only [newStint]
    exact ⟨hpos, le_rfl⟩
  · simp
  · simp

theorem walkInv_step (m : Nat) (st : StintState) (hO : OpenInv st)
    (hW : WalkInv m st) (lap : StintLap) (hgt : m < lap.lapNumber) :
    WalkInv lap.lapNumber (stintStep st lap) := by
  have hmax := hW.maxPos
  rw [stintStep]
  split
  · -- compound change: close the open stint, append a fresh one
    refine ⟨?_, ?_, ?_, ?_, by omega⟩ <;> simp only []
    · intro i a b ha hb
      have hclen := closeOpenStint_length st lap.lapNumber
      rw [List.getElem?_append] at ha hb
      split at hb
      · rename_i hib
        have hia : i < (closeOpenStint st lap.lapNumber).length := by omega
        rw [if_pos hia] at ha
        rcases closeOpenStint_spec st hO lap.lapNumber i a ha with
          ⟨a0, ha0, _, hasl, haunch, _⟩
        rcases closeOpenStint_spec st hO lap.lapNumber (i + 1) b hb with
          ⟨b0, hb0, _, hbsl, _, _⟩
        have hib' : i + 1 < st.stints.length := by omega
        have haeq : a = a0 := haunch hib'
        have hcont := hW.contiguous i a0 b0 ha0 hb0
        rw [haeq, hbsl]
        exact hcont
      · rename_i hib
        cases hk : i + 1 - (closeOpenStint st lap.lapNumber).length with
        | zero =>
          rw [hk] at hb
          simp only [List.getElem?_cons_zero] at hb
          have hlen0 : 0 < st.stints.length := by
            cases h : st.stints with
            | nil => exact absurd h hW.nonempty
            | cons x t => simp [h]
          have hia : i < (closeOpenStint st lap.lapNumber).length := by omega
          rw [if_pos hia] at ha
          rcases closeOpenStint_spec st hO lap.lapNumber i a ha with
            ⟨a0, ha0, _, hasl, _, haclose⟩
          have hieq : i + 1 = st.stints.length := by omega
          have haeq := haclose hieq hW.compoundSome
          have hbnd := hW.bounds a0 (mem_of_getElem?_eq ha0)
          have hbeq := Option.some_inj.mp hb
          rw [haeq, ← hbeq]
          simp only [newStint]
          constructor
          · trivial
          · omega
        | succ k =>
          rw [hk] at hb
          simp at hb
    · intro a hma
      rw [List.mem_append] at hma
      rcases hma with hma | hma
      · rcases List.mem_iff_getElem?.mp hma with ⟨i, hi⟩
        rcases closeOpenStint_spec st hO lap.lapNumber i a hi with
          ⟨b, hb, _, hsl, _, _⟩
        have hbnd := hW.bounds b (mem_of_getElem?_eq hb)
        rw [hsl]
        exact ⟨hbnd.1, by omega⟩
      · simp only [List.mem_singleton] at hma
        rw [hma]
        simp only [newStint]
        exact ⟨by omega, le_rfl⟩
    · simp
    · simp
  · -- same compound: refresh the open stint
    refine ⟨?_, ?_, ?_, ?_, by omega⟩ <;> simp only []
    · intro i a b ha hb
      rw [updateStint_getElem?] at ha hb
      cases ha0 : st.stints[i]? with
      | none => rw [ha0] at ha; simp at ha
      | some a0 =>
        cases hb0 : st.stints[i + 1]? with
        | none => rw [hb0] at hb; simp at hb
        | some b0 =>
          rw [ha0] at ha
          rw [hb0] at hb
          simp only [Option.map_some'] at ha hb
          have hvala := Option.some_inj.mp ha
          have hvalb := Option.some_inj.mp hb
          have hnuma := hO.numbering i a0 ha0
          have hlen := hO.numLen
          have hib : i + 1 < st.stints.length := (List.getElem?_eq_some.mp hb0).1
          have haeq : a = a0 := by rw [← hvala, if_neg (by omega)]
          have hbsl : b.startLap = b0.startLap := by
            rw [← hvalb]; split <;> simp
          have hcont := hW.contiguous i a0 b0 ha0 hb0
          rw [haeq, hbsl]
          exact hcont
    · intro a hma
      rw [updateStint] at hma
      rcases List.mem_map.mp hma with ⟨b, hb, hba⟩
      have hbnd := hW.bounds b hb
      have hsl : a.startLap = b.startLap := by
        rw [← hba]; split <;> simp
      rw [hsl]
      exact ⟨hbnd.1, by omega⟩
    · rw [updateStint]
      rw [Ne, List.map_eq_nil_iff]
      exact hW.nonempty
    · exact hW.compoundSome

theorem walkInv_foldl (laps : List StintLap) (st : StintState) (m : Nat)
    (hO : OpenInv st) (hW : WalkInv m st)
    (hchain : List.Chain (· < ·) m (laps.map (·.lapNumber))) :
    WalkInv (laps.foldl (fun _ l => l.lapNumber) m) (laps.foldl stintStep st) := by
  induction laps generalizing st m with
  | nil => exact hW
  | cons l ls ih =>
    rw [List.map_cons, List.chain_cons] at hchain
    exact ih (stintStep st l) l.lapNumber (openInv_step st hO l)
      (walkInv_step m st hO hW l hchain.1) hchain.2

theorem foldl_lapNumber_getLast? (laps : List StintLap) (m : Nat) :
    laps.foldl (fun _ l => l.lapNumber) m =
      ((laps.getLast?).map (·.lapNumber)).getD m := by
  induction laps generalizing m with
  | nil => rfl
  | cons l t ih =>
    rw [List.foldl_cons, ih]
    cases t with
    | nil => rfl
    | cons y t' =>
      rw [List.getLast?_cons_cons]
      cases h : (y :: t').getLast? with
      | none => simp at h
      | some x => rfl

theorem finalizeStints_length (st : StintState) (M : Nat) :
    (finalizeStints st M).length = st.stints.length := by
  rw [finalizeStints]
  split
  · exact updateStint_length _ _ _
  · rfl

theorem finalizeStints_spec (st : StintState) (hO : OpenInv st) (M : Nat)
    (hne : st.stints ≠ []) (i : Nat) (a : Stint)
    (ha : (finalizeStints st M)[i]? = some a) :
    ∃ b : Stint, st.stints[i]? = some b ∧ a.stintNumber = b.stintNumber ∧
      a.startLap = b.startLap ∧
      (i + 1 < st.stints.length → a = b) ∧
      (i + 1 = st.stints.length → a = { b with endLap := some M }) := by
  rw [finalizeStints] at ha
  have hn0 : 0 < st.stintNum := by
    rw [hO.numLen]
    cases h : st.stints with
    | nil => exact absurd h hne
    | cons x t => simp [h]
  rw [if_pos hn0, updateStint_getElem?] at ha
  cases hb : st.stints[i]? with
  | none => rw [hb] at ha; simp at ha
  | some b =>
    rw [hb] at ha
    simp only [Option.map_some'] at ha
    have hval := Option.some_inj.mp ha
    have hnum := hO.numbering i b hb
    have hlen := hO.numLen
    refine ⟨b, rfl, ?_, ?_, ?_, ?_⟩
    · rw [← hval]; split <;> simp
    · rw [← hval]; split <;> simp
    · intro hlt
      rw [← hval, if_neg (by omega)]
    · intro heq
      rw [← hval, if_pos (by omega)]

/-- C4: after the stint derivation completes, a driver's stints are
contiguous — consecutive stints satisfy `end_lap + 1 = next start_lap` —
every stint is a well-formed closed interval (`start_lap ≤ end_lap`),
and no two stints overlap (`end_lap < start_lap` of any later stint).
Hypotheses: the driver's lap list is nonempty with strictly increasing
lap numbers starting at 1 or later, which is what
`laps[laps['Driver'] == abbr].sort_values('LapNumber')` hands the walk
given the one-row-per-(driver, lap) data model. -/
theorem stint_contiguity (laps : List StintLap)
    (hne : laps ≠ [])
    (hchain : List.Chain' (· < ·) (laps.map (·.lapNumber)))
    (hpos : ∀ l ∈ laps, 1 ≤ l.lapNumber) :
    (∀ (i : Nat) (a b : Stint), (deriveStints laps)[i]? = some a →
       (deriveStints laps)[i + 1]? = some b →
       ∃ e, a.endLap = some e ∧ e + 1 = b.startLap ∧ a.startLap ≤ e) ∧
    (∀ (i : Nat) (a : Stint), (deriveStints laps)[i]? = some a →
       ∃ e, a.endLap = some e ∧ a.startLap ≤ e) ∧
    (∀ (i j : Nat) (a b : Stint) (e : Nat), i < j →
       (deriveStints laps)[i]? = some a →
       (deriveStints laps)[j]? = some b → a.endLap = some e →
       e < b.startLap) := by
  cases laps with
  | nil => exact absurd rfl hne
  | cons l0 ls =>
  -- the walk state after all laps, with its invariants
  have hO : OpenInv ((l0 :: ls).foldl stintStep initStintState) :=
    openInv_foldl _ _ openInv_init
  have hW0 : WalkInv l0.lapNumber (stintStep initStintState l0) :=
    walkInv_first l0 (hpos l0 (by simp))
  have hchain' : List.Chain (· < ·) l0.lapNumber (ls.map (·.lapNumber)) := by
    rw [List.map_cons] at hchain
    exact hchain
  have hW : WalkInv (ls.foldl (fun _ l => l.lapNumber) l0.lapNumber)
      (ls.foldl stintStep (stintStep initStintState l0)) :=
    walkInv_foldl ls (stintStep initStintState l0) l0.lapNumber
      (openInv_step initStintState openInv_init l0) hW0 hchain'
  -- identify the invariant's bound with the last lap number
  obtain ⟨last, hlast⟩ : ∃ x, (l0 :: ls).getLast? = some x := by
    cases h : (l0 :: ls).getLast? with
    | none => simp at h
    | some x => exact ⟨x, rfl⟩
  have hM : ls.foldl (fun _ l => l.lapNumber) l0.lapNumber = last.lapNumber := by
    rw [foldl_lapNumber_getLast?]
    cases ls with
    | nil =>
      simp at hlast
      rw [← hlast]
      rfl
    | cons y t =>
      rw [List.getLast?_cons_cons] at hlast
      rw [hlast]
      rfl
  rw [hM] at hW
  have hfold : (l0 :: ls).foldl stintStep initStintState =
      ls.foldl stintStep (stintStep initStintState l0) := rfl
  rw [hfold] at hO
  set st := ls.foldl stintStep (stintStep initStintState l0) with hst
  have hderive : deriveStints (l0 :: ls) = finalizeStints st last.lapNumber := by
    rw [deriveStints, hlast, hfold]
  set ss := finalizeStints st last.lapNumber with hss
  have hlen : ss.length = st.stints.length := finalizeStints_length st last.lapNumber
  -- pairwise facts on the finalized list
  have pair : ∀ (i : Nat) (a b : Stint), ss[i]? = some a → ss[i + 1]? = some b →
      a.endLap = some (b.startLap - 1) ∧ a.startLap < b.startLap ∧
      1 ≤ b.startLap := by
    intro i a b ha hb
    have hib : i + 1 < ss.length := (List.getElem?_eq_some.mp hb).1
    rcases finalizeStints_spec st hO last.lapNumber hW.nonempty i a ha with
      ⟨a0, ha0, _, _, haunch, _⟩
    rcases finalizeStints_spec st hO last.lapNumber hW.nonempty (i + 1) b hb with
      ⟨b0, hb0, _, hbsl, _, _⟩
    have haeq : a = a0 := haunch (by omega)
    have hcont := hW.contiguous i a0 b0 ha0 hb0
    have hbnd := hW.bounds b0 (mem_of_getElem?_eq hb0)
    rw [haeq, hbsl]
    exact ⟨hcont.1, hcont.2, hbnd.1⟩
  have lastfact : ∀ (i : Nat) (a : Stint), ss[i]? = some a → i + 1 = ss.length →
      a.endLap = some last.lapNumber ∧ a.startLap ≤ last.lapNumber := by
    intro i a ha hieq
    rcases finalizeStints_spec st hO last.lapNumber hW.nonempty i a ha with
      ⟨a0, ha0, _, hasl, _, haclose⟩
    have haeq := haclose (by omega)
    have hbnd := hW.bounds a0 (mem_of_getElem?_eq ha0)
    rw [haeq]
    exact ⟨rfl, by simp; omega⟩
  have closed : ∀ (i : Nat) (a : Stint), ss[i]? = some a →
      ∃ e, a.endLap = some e ∧ a.startLap ≤ e := by
    intro i a ha
    have hia : i < ss.length := (List.getElem?_eq_some.mp ha).1
    by_cases hlast' : i + 1 = ss.length
    · rcases lastfact i a ha hlast' with ⟨he, hle⟩
      exact ⟨last.lapNumber, he, hle⟩
    · have hib : i + 1 < ss.length := by omega
      cases hb : ss[i + 1]? with
      | none =>
        have := List.getElem?_eq_none_iff.mp hb
        omega
      | some b =>
        rcases pair i a b ha hb with ⟨he, hlt, hpos'⟩
        exact ⟨b.startLap - 1, he, by omega⟩
  have mono : ∀ (k i : Nat) (a b : Stint), ss[i]? = some a → ss[i + k + 1]? = some b →
      a.startLap < b.startLap := by
    intro k
    induction k with
    | zero =>
      intro i a b ha hb
      exact (pair i a b ha hb).2.1
    | succ k ih =>
      intro i a b ha hb
      have hjb : i + (k + 1) + 1 < ss.length := (List.getElem?_eq_some.mp hb).1
      have hib : i + 1 < ss.length := by omega
      cases hc : ss[i + 1]? with
      | none =>
        have := List.getElem?_eq_none_iff.mp hc
        omega
      | some c =>
        have h1 := (pair i a c ha hc).2.1
        have hb' : ss[i + 1 + k + 1]? = some b := by
          rw [show i + 1 + k + 1 = i + (k + 1) + 1 from by omega]
          exact hb
        have h2 := ih (i + 1) c b hc hb'
        omega
  rw [hderive]
  refine ⟨?_, ?_, ?_⟩
  · intro i a b ha hb
    rcases pair i a b ha hb with ⟨he, hlt, hpos'⟩
    exact ⟨b.startLap - 1, he, by omega, by omega⟩
  · exact closed
  · intro i j a b e hij ha hb he
    have hjb : j < ss.length := (List.getElem?_eq_some.mp hb).1
    have hib : i + 1 < ss.length ∨ i + 1 = ss.length := by omega
    cases hc : ss[i + 1]? with
    | none =>
      have := List.getElem?_eq_none_iff.mp hc
      omega
    | some c =>
      rcases pair i a c ha hc with ⟨he', hlt, hpos'⟩
      rw [he] at he'
      have heeq : e = c.startLap - 1 := Option.some_inj.mp he'
      by_cases hj1 : j = i + 1
      · rw [hj1] at hb
        have hbc : c = b := by
          rw [hc] at hb
          exact Option.some_inj.mp hb
        rw [hbc] at heeq hpos'
        omega
      · have h2 : c.startLap < b.startLap := by
          apply mono (j - i - 2) (i + 1) c b hc
          rw [show i + 1 + (j - i - 2) + 1 = j from by omega]
          exact hb
        omega

theorem stint_contiguity_witness :
    ([(⟨1, "SOFT", 1, true⟩ : StintLap), ⟨2, "SOFT", 2, true⟩,
        ⟨3, "MEDIUM", 1, true⟩] ≠ []) ∧
    (∃ e, ((deriveStints [(⟨1, "SOFT", 1, true⟩ : StintLap), ⟨2, "SOFT", 2, true⟩,
        ⟨3, "MEDIUM", 1, true⟩])[0]?.bind (·.endLap) = some e ∧
      e + 1 = 3)) ∧
    (∀ (i : Nat) (a : Stint),
      (deriveStints [(⟨1, "SOFT", 1, true⟩ : StintLap), ⟨2, "SOFT", 2, true⟩,
        ⟨3, "MEDIUM", 1, true⟩])[i]? = some a →
      ∃ e, a.endLap = some e ∧ a.startLap ≤ e) := by
  have h := stint_contiguity
    [(⟨1, "SOFT", 1, true⟩ : StintLap), ⟨2, "SOFT", 2, true⟩, ⟨3, "MEDIUM", 1, true⟩]
    (by decide) (by simp [List.chain'_cons]) (by decide)
  refine ⟨by decide, ?_, h.2.1⟩
  rcases h.1 0 ⟨1, "SOFT", 1, some 2, 2, true⟩ ⟨2, "MEDIUM", 3, some 3, 1, true⟩
    (by decide) (by decide) with ⟨e, he, hsum, _⟩
  refine ⟨e, ?_, hsum⟩
  rw [show (deriveStints [(⟨1, "SOFT", 1, true⟩ : StintLap), ⟨2, "SOFT", 2, true⟩,
      ⟨3, "MEDIUM", 1, true⟩])[0]? = some ⟨1, "SOFT", 1, some 2, 2, true⟩ from by decide]
  simpa using he

theorem strideList_getElem? (xs : List α) (step : Nat) (hstep : 1 ≤ step) (i : Nat) :
    (strideList xs step)[i]? = xs[i * step]? := by
  match xs with
  | [] => simp [strideList]
  | a :: as =>
    match i with
    | 0 => simp [strideList]
    | i + 1 =>
      rw [strideList]
      simp only [List.getElem?_cons_succ]
      rw [strideList_getElem? (as.drop (step - 1)) step hstep i]
      rw [List.getElem?_drop]
      have he : (i + 1) * step = (step - 1 + i * step) + 1 := by
        cases step with
        | zero => omega
        | succ s => ring_nf; omega
      rw [he, List.getElem?_cons_succ]
termination_by xs.length
decreasing_by simp; omega

theorem samplePoints_length_le (xs : List α) : (samplePoints xs).length ≤ 200 := by
  unfold samplePoints
  split
  · simp [List.length_take]
  · omega

theorem samplePoints_getElem? (xs : List α) (i : Nat)
    (hi : i < (samplePoints xs).length) :
    (samplePoints xs)[i]? = xs[i * sampleStep xs.length]? := by
  unfold samplePoints at hi ⊢
  unfold sampleStep
  by_cases h : 200 < xs.length
  · rw [if_pos h] at hi ⊢
    rw [if_pos h]
    have hi200 : i < 200 := by
      simp [List.length_take] at hi
      omega
    rw [List.getElem?_take, if_pos hi200]
    exact strideList_getElem? xs _ (by omega) i
  · rw [if_neg h] at hi ⊢
    rw [if_neg h, Nat.mul_one]

theorem safeList_col_getElem? (points : List TelPoint) (f : TelPoint → Option ℚ)
    (i : Nat) (hi : i < (samplePoints points).length) :
    (safeList ((samplePoints points).map f))[i]? =
      (points[i * sampleStep points.length]?).map (fun p => safeVal (f p)) := by
  rw [safeList, List.getElem?_map, List.getElem?_map,
    samplePoints_getElem? points i hi]
  cases points[i * sampleStep points.length]? <;> rfl

/-- C8: every stored telemetry row's six JSON arrays have at most 200
points; each is obtained from the raw series by the uniform stride
`sampleStep`, with every value rounded to one decimal place and NaN
coerced to 0 (`gear`/`drs` subject to the column being present). -/
theorem telemetry_sampling (points : List TelPoint) (hasGear hasDRS : Bool) :
    (buildTelemetry points hasGear hasDRS).distance.length ≤ 200 ∧
    (buildTelemetry points hasGear hasDRS).speed.length ≤ 200 ∧
    (buildTelemetry points hasGear hasDRS).throttle.length ≤ 200 ∧
    (buildTelemetry points hasGear hasDRS).brake.length ≤ 200 ∧
    (buildTelemetry points hasGear hasDRS).gear.length ≤ 200 ∧
    (buildTelemetry points hasGear hasDRS).drs.length ≤ 200 ∧
    ∀ i, i < (samplePoints points).length →
      (buildTelemetry points hasGear hasDRS).distance[i]? =
        (points[i * sampleStep points.length]?).map (fun p => safeVal p.distance) ∧
      (buildTelemetry points hasGear hasDRS).speed[i]? =
        (points[i * sampleStep points.length]?).map (fun p => safeVal p.speed) ∧
      (buildTelemetry points hasGear hasDRS).throttle[i]? =
        (points[i * sampleStep points.length]?).map (fun p => safeVal p.throttle) ∧
      (buildTelemetry points hasGear hasDRS).brake[i]? =
        (points[i * sampleStep points.length]?).map (fun p => safeVal p.brake) ∧
      (hasGear = true →
        (buildTelemetry points hasGear hasDRS).gear[i]? =
          (points[i * sampleStep points.length]?).map (fun p => safeVal p.gear)) ∧
      (hasDRS = true →
        (buildTelemetry points hasGear hasDRS).drs[i]? =
          (points[i * sampleStep points.length]?).map (fun p => safeVal p.drs)) := by
  have hlen : ∀ f : TelPoint → Option ℚ,
      (safeList ((samplePoints points).map f)).length ≤ 200 := by
    intro f
    rw [safeList, List.length_map, List.length_map]
    exact samplePoints_length_le points
  refine ⟨hlen _, hlen _, hlen _, hlen _, ?_, ?_, ?_⟩
  · by_cases hg : hasGear <;> simp [buildTelemetry, hg, hlen]
  · by_cases hd : hasDRS <;> simp [buildTelemetry, hd, hlen]
  · intro i hi
    refine ⟨safeList_col_getElem? points _ i hi, safeList_col_getElem? points _ i hi,
      safeList_col_getElem? points _ i hi, safeList_col_getElem? points _ i hi,
      ?_, ?_⟩
    · intro hg
      simp only [buildTelemetry, hg, if_true]
      exact safeList_col_getElem? points _ i hi
    · intro hd
      simp only [buildTelemetry, hd, if_true]
      exact safeList_col_getElem? points _ i hi

theorem telemetry_sampling_witness :
    0 < (samplePoints [(⟨some (3/2), none, some 1, some 2, none, some 0⟩ :
        TelPoint)]).length ∧
    (buildTelemetry [(⟨some (3/2), none, some 1, some 2, none, some 0⟩ :
        TelPoint)] true true).distance[0]? =
      (([(⟨some (3/2), none, some 1, some 2, none, some 0⟩ : TelPoint)])[0 *
          sampleStep ([(⟨some (3/2), none, some 1, some 2, none, some 0⟩ :
            TelPoint)]).length]?).map (fun p => safeVal p.distance) := by
  refine ⟨by decide, ?_⟩
  exact ((telemetry_sampling
    [(⟨some (3/2), none, some 1, some 2, none, some 0⟩ : TelPoint)] true
    true).2.2.2.2.2.2 0 (by decide)).1

/-- C2 (code defect): for any database whose active race exists — in
particular one with `current_lap = 0` — `api_ranking` raises `NameError`
on the unbound local `current_lap` instead of returning the successful
response with `lap_time = "—"` and `delta = "—"` per driver that the
specification (and the dead code block in views.py 66-94) describes. -/
theorem api_ranking_raises_name_error (races : List ViewRace) (r : ViewRace)
    (hr : getActiveRace races = some r) (hcur : r.currentLap = 0) :
    apiRanking races = .error "NameError: name 'current_lap' is not defined" := by
  simp [apiRanking, hr]

theorem api_ranking_raises_name_error_witness :
    getActiveRace [⟨1, 2024, 1, 0, 57, true, true⟩] =
        some ⟨1, 2024, 1, 0, 57, true, true⟩ ∧
    apiRanking [⟨1, 2024, 1, 0, 57, true, true⟩] =
      .error "NameError: name 'current_lap' is not defined" :=
  ⟨by decide,
   api_ranking_raises_name_error [⟨1, 2024, 1, 0, 57, true, true⟩]
     ⟨1, 2024, 1, 0, 57, true, true⟩ (by decide) rfl⟩

/-- C9: for an active race and a driver of that race having no stored
telemetry row with `lap_number ≤ current_lap`, the telemetry endpoint
answers `status = "ok"` with `lap = null` and `telemetry = null` rather
than an error. -/
theorem api_telemetry_absent (races : List ViewRace) (drivers : List ViewDriver)
    (tels : List TelRow) (abbr : String) (race : ViewRace) (d : ViewDriver)
    (hrace : getActiveRace races = some race)
    (hfound : firstBy driverOrder (drivers.filter
      (fun dd => dd.raceId == race.id && dd.abbreviation == pyUpper abbr)) = some d)
    (hnotel : ∀ t ∈ tels,
      ¬(t.raceId = race.id ∧ t.driverId = d.id ∧ t.lapNumber ≤ race.currentLap)) :
    apiTelemetry races drivers tels abbr = ⟨"ok", some (pyUpper abbr), none, none⟩ := by
  have hfilter : tels.filter
      (fun t => t.raceId == race.id && t.driverId == d.id &&
        t.lapNumber ≤ race.currentLap) = [] := by
    rw [List.filter_eq_nil_iff]
    intro t ht
    simp only [Bool.and_eq_true, beq_iff_eq, decide_eq_true_eq]
    rintro ⟨⟨h1, h2⟩, h3⟩
    exact hnotel t ht ⟨h1, h2, h3⟩
  simp [apiTelemetry, hrace, hfound, hfilter, firstBy]

theorem api_telemetry_absent_witness :
    getActiveRace [⟨1, 2024, 1, 3, 57, true, true⟩] =
        some ⟨1, 2024, 1, 3, 57, true, true⟩ ∧
    (∀ t ∈ [(⟨1, 7, 10, "[]", "[]", "[]", "[]", "[]", "[]"⟩ : TelRow)],
      ¬(t.raceId = 1 ∧ t.driverId = 7 ∧ t.lapNumber ≤ 3)) ∧
    apiTelemetry [⟨1, 2024, 1, 3, 57, true, true⟩] [⟨7, 1, "VER", 1⟩]
      [⟨1, 7, 10, "[]", "[]", "[]", "[]", "[]", "[]"⟩] "ver" =
      ⟨"ok", some "VER", none, none⟩ := by
  refine ⟨by decide, by decide, ?_⟩
  have h := api_telemetry_absent [⟨1, 2024, 1, 3, 57, true, true⟩] [⟨7, 1, "VER", 1⟩]
    [⟨1, 7, 10, "[]", "[]", "[]", "[]", "[]", "[]"⟩] "ver"
    ⟨1, 2024, 1, 3, 57, true, true⟩ ⟨7, 1, "VER", 1⟩ (by decide) (by decide) (by decide)
  simpa using h

end F1
